import Mathlib

/-!
Verification development for the web-scraping subsystem of the prospecting
assistant (src/src/scraper.py together with the data model in src/src/models.py).

Modelling conventions:
* Python strings are modelled as lists of unicode scalar values (`Str := List Char`);
  all Python string operations used by the scraper are re-implemented below on
  that representation (slicing, strip, splitlines, lower, replace, ...).
  Python `str.lower`/`str.upper`/`str.capitalize` are modelled for the ASCII
  alphabet, and `str.strip` for the ASCII whitespace characters, which is the
  alphabet all of the scraper's fixed tables use.
* The BeautifulSoup parse tree is modelled by the inductive `Node`; a fetched
  page is an `Html` value carrying both the raw markup text (scanned by the
  email regex) and its parse tree (used by every soup operation).
* The network (requests / playwright) is an oracle `FetchEnv` supplied to the
  crawler: `fetchPage` gives the outcome of `session.get` for a URL and
  `playwright` gives the outcome of the headless-render fallback (`none` models
  both an unavailable engine and a failed render).
-/

set_option maxRecDepth 100000
set_option maxHeartbeats 1000000

/-- A Python string: a sequence of unicode scalar values. -/
abbrev Str := List Char

/-- Character list of a Lean string literal. -/
def st (s : String) : Str := s.data

/-- Characters treated as whitespace by Python `str.strip` / `str.splitlines`
(ASCII subset). -/
def isSpaceChar (c : Char) : Bool :=
  c == ' ' || c == '\t' || c == '\n' || c == '\r' || c == '\x0b' || c == '\x0c'

/-- Python `str.strip()`. -/
def trimStr (s : Str) : Str :=
  ((s.dropWhile isSpaceChar).reverse.dropWhile isSpaceChar).reverse

/-- The 26 ASCII letter pairs (uppercase, lowercase). -/
def asciiPairs : List (Char × Char) :=
  [('A', 'a'), ('B', 'b'), ('C', 'c'), ('D', 'd'), ('E', 'e'), ('F', 'f'),
   ('G', 'g'), ('H', 'h'), ('I', 'i'), ('J', 'j'), ('K', 'k'), ('L', 'l'),
   ('M', 'm'), ('N', 'n'), ('O', 'o'), ('P', 'p'), ('Q', 'q'), ('R', 'r'),
   ('S', 's'), ('T', 't'), ('U', 'u'), ('V', 'v'), ('W', 'w'), ('X', 'x'),
   ('Y', 'y'), ('Z', 'z')]

/-- Python `str.lower` on one character (ASCII). -/
def lowerChar (c : Char) : Char :=
  ((asciiPairs.find? (fun p => p.1 == c)).map (·.2)).getD c

/-- Python `str.upper` on one character (ASCII). -/
def upperChar (c : Char) : Char :=
  ((asciiPairs.find? (fun p => p.2 == c)).map (·.1)).getD c

/-- Python `str.lower`. -/
def lowerStr (s : Str) : Str := s.map lowerChar

/-- Python `str.upper`. -/
def upperStr (s : Str) : Str := s.map upperChar

/-- Python `str.capitalize`: first character uppercased, the rest lowercased. -/
def capitalizeStr : Str → Str
  | [] => []
  | c :: cs => upperChar c :: lowerStr cs

/-- Whether the first list is an initial segment of the second
(Python `str.startswith`). -/
def isPre : Str → Str → Bool
  | [], _ => true
  | _ :: _, [] => false
  | a :: as, b :: bs => a == b && isPre as bs

/-- Python `str.endswith`. -/
def endsWithStr (suf s : Str) : Bool := isPre suf.reverse s.reverse

/-- Python substring containment (`sub in s`). -/
def containsSub (sub : Str) : Str → Bool
  | [] => isPre sub []
  | c :: t => isPre sub (c :: t) || containsSub sub t

/-- Python `s.split(sep)[0]` for a non-empty separator: the part of `s` before
the first occurrence of `sep` (all of `s` when `sep` does not occur). -/
def beforeFirst (sep : Str) : Str → Str
  | [] => []
  | c :: t => if isPre sep (c :: t) then [] else c :: beforeFirst sep t

/-- Python `s.split("@", 1)[1]`: everything after the first `@`. -/
def afterFirstAt (s : Str) : Str := (s.dropWhile (fun c => c != '@')).drop 1

/-- Fuelled worker for `replaceAllStr`; every step consumes at least one
character, so fuel equal to the input length never runs out. -/
def replaceAllGo (pat repl : Str) : Nat → Str → Str
  | _, [] => []
  | 0, s => s
  | fuel + 1, c :: cs =>
    if pat ≠ [] ∧ isPre pat (c :: cs) then
      repl ++ replaceAllGo pat repl fuel (cs.drop (pat.length - 1))
    else
      c :: replaceAllGo pat repl fuel cs

/-- Python `str.replace(pat, repl)` for a non-empty pattern: replaces every
occurrence, scanning left to right without overlap. -/
def replaceAllStr (pat repl s : Str) : Str := replaceAllGo pat repl s.length s

/-- Python `str.rstrip("/")`: removes every trailing slash. -/
def rstripSlash : Str → Str
  | [] => []
  | c :: cs =>
    let r := rstripSlash cs
    if r = [] ∧ c = '/' then [] else c :: r

/-- Worker for `splitLines`; `acc` holds the current line reversed. -/
def splitLinesGo : Str → Str → List Str
  | [], acc => if acc = [] then [] else [acc.reverse]
  | '\r' :: '\n' :: rest, acc => acc.reverse :: splitLinesGo rest []
  | '\n' :: rest, acc => acc.reverse :: splitLinesGo rest []
  | '\r' :: rest, acc => acc.reverse :: splitLinesGo rest []
  | c :: rest, acc => splitLinesGo rest (c :: acc)

/-- Python `str.splitlines()` for the terminators `\n`, `\r` and `\r\n`:
splits at terminators, dropping a trailing empty line. -/
def splitLines (s : Str) : List Str := splitLinesGo s []

/-- Python `sep.join(parts)`. -/
def joinSep (sep : Str) : List Str → Str
  | [] => []
  | [l] => l
  | l :: ls => l ++ sep ++ joinSep sep ls

/-- Ordered-set insertion used for Python `dict`-as-ordered-set: first
occurrence wins the position, duplicates are dropped. -/
def insertNew (l : List Str) (x : Str) : List Str :=
  if x ∈ l then l else l ++ [x]

/-- Insert every element of `xs` in order into the ordered set `l`. -/
def insertAll (l : List Str) (xs : List Str) : List Str := xs.foldl insertNew l

/-- The BeautifulSoup parse tree, as a first-child / next-sibling forest: a
forest is empty, or a navigable string followed by its siblings, or an element
with a tag name, attributes in document order, a child forest and its
siblings. (The child/sibling representation keeps every traversal a plain
structural recursion.) -/
inductive Dom where
  | nil
  | text (s : Str) (next : Dom)
  | elem (tag : Str) (attrs : List (Str × Str)) (children : Dom) (next : Dom)
deriving Repr, DecidableEq

/-- A fetched page: the raw markup text together with its parse tree
(`BeautifulSoup(raw, "html.parser")`). -/
structure Html where
  raw : Str
  doc : Dom
deriving Repr, DecidableEq

/-- First attribute value with the given name (`tag.get(name)` /
`tag[name]`). -/
def attrOf (attrs : List (Str × Str)) (name : Str) : Option Str :=
  (attrs.find? (fun p => p.1 = name)).map (·.2)

/-- First element in document (pre-)order whose tag and attributes satisfy
`p` (`soup.find`); returns its tag, attributes and child forest. -/
def findElem (p : Str → List (Str × Str) → Bool) :
    Dom → Option (Str × List (Str × Str) × Dom)
  | .nil => none
  | .text _ next => findElem p next
  | .elem t a ch next =>
    if p t a then some (t, a, ch)
    else
      match findElem p ch with
      | some r => some r
      | none => findElem p next

/-- All navigable strings of a forest in document order. -/
def texts : Dom → List Str
  | .nil => []
  | .text s next => s :: texts next
  | .elem _ _ ch next => texts ch ++ texts next

/-- BeautifulSoup `get_text(separator=sep, strip=True)`: each string stripped,
empty results dropped, joined with `sep`. -/
def getTextSep (sep : Str) (ns : Dom) : Str :=
  joinSep sep (((texts ns).map trimStr).filter (fun l => l ≠ []))

/-- BeautifulSoup `tag.get_text(strip=True)` (default empty separator),
applied to the child forest of an element. -/
def stripJoin (ns : Dom) : Str := getTextSep [] ns

/-- BeautifulSoup `tag.string` applied to the child forest of an element: the
single navigable string reached through only children, if any. -/
def nodeStringOf : Dom → Option Str
  | .text s .nil => some s
  | .elem _ _ ch .nil => nodeStringOf ch
  | _ => none

/-! ## Scraper constants (src/src/scraper.py lines 21-60) -/

/-- Keyword-to-page-type table `PAGE_KEYWORDS`, in source (insertion) order. -/
def PAGE_KEYWORDS : List (Str × Str) :=
  [(st "about", st "about"), (st "services", st "services"),
   (st "solutions", st "services"), (st "products", st "services"),
   (st "offerings", st "services"), (st "what-we-do", st "services"),
   (st "blog", st "blog"), (st "news", st "blog"), (st "insights", st "blog"),
   (st "contact", st "contact"), (st "team", st "about"),
   (st "careers", st "about"), (st "case-studies", st "services"),
   (st "portfolio", st "services"), (st "pricing", st "services"),
   (st "faq", st "services")]

/-- Tags removed from the tree before text extraction (`STRIP_ELEMENTS`). -/
def STRIP_ELEMENTS : List Str :=
  [st "script", st "style", st "nav", st "footer", st "header", st "noscript",
   st "iframe", st "svg", st "form", st "button"]

/-- Maximum number of pages scraped per site (`MAX_PAGES`). -/
def MAX_PAGES : Nat := 8

/-- Maximum characters kept per page (`MAX_CONTENT_LENGTH`). -/
def MAX_CONTENT_LENGTH : Nat := 5000

/-- The marker appended after the cut when a page's text is truncated. -/
def truncationMarker : Str := st "\n... [content truncated]"

/-! ## Content normalizer (`_extract_text`, scraper.py lines 86-114) -/

/-- Removes every element whose tag is in `STRIP_ELEMENTS`, with its whole
subtree (`tag.decompose()` over `soup.find_all(tag_name)`). -/
def stripElems : Dom → Dom
  | .nil => .nil
  | .text s next => .text s (stripElems next)
  | .elem t a ch next =>
    if t ∈ STRIP_ELEMENTS then stripElems next
    else .elem t a (stripElems ch) (stripElems next)

/-- The kept lines of `_extract_text`: soup text with newline separators,
split into lines, each stripped, empty lines dropped, lines of length at most
2 dropped. -/
def cleanedLines (doc : Dom) : List Str :=
  let text := getTextSep (st "\n") (stripElems doc)
  let lines := (splitLines text).map trimStr
  let lines := lines.filter (fun l => l ≠ [])
  lines.filter (fun l => 2 < l.length)

/-- The cleaned text of `_extract_text` before the length cap: the kept lines
re-joined with newlines. -/
def cleanedText (doc : Dom) : Str :=
  joinSep (st "\n") (cleanedLines doc)

/-- `_extract_text`: cleaned readable text, truncated to `MAX_CONTENT_LENGTH`
characters with `truncationMarker` appended when longer. -/
def extract_text (doc : Dom) : Str :=
  let text := cleanedText doc
  if MAX_CONTENT_LENGTH < text.length then
    text.take MAX_CONTENT_LENGTH ++ truncationMarker
  else text

/-! ## Title and company name (`_extract_title`, `_extract_company_name`) -/

/-- The title string used by `_extract_title` and `_extract_company_name`:
`soup.find("title")` when present with a truthy `.string`. -/
def titleString (doc : Dom) : Option Str :=
  match findElem (fun t _ => t = st "title") doc with
  | some (_, _, ch) =>
    match nodeStringOf ch with
    | some s => if s = [] then none else some s
    | none => none
  | none => none

/-- `_extract_title`: the stripped title string, else the text of the first
`h1`, else empty. -/
def extract_title (doc : Dom) : Str :=
  match titleString doc with
  | some s => trimStr s
  | none =>
    match findElem (fun t _ => t = st "h1") doc with
    | some (_, _, ch) => stripJoin ch
    | none => []

/-- The `og:site_name` meta content used by `_extract_company_name`:
`soup.find("meta", property="og:site_name")` when present with a truthy
`content` attribute. -/
def ogSiteName (doc : Dom) : Option Str :=
  match findElem
      (fun t attrs =>
        t = st "meta" ∧ attrOf attrs (st "property") = some (st "og:site_name"))
      doc with
  | some (_, attrs, _) =>
    match attrOf attrs (st "content") with
    | some c => if c = [] then none else some c
    | none => none
  | none => none

/-- The separator list tried, in order, on the title by
`_extract_company_name`. -/
def TITLE_SEPARATORS : List Str :=
  [st " | ", st " - ", st " — ", st " – ", st " :: "]

/-- Title-based company name: the part before the first separator found in
the priority list, stripped; the whole title when no separator occurs. -/
def splitTitleName (title : Str) : Str :=
  match TITLE_SEPARATORS.find? (fun sep => containsSub sep title) with
  | some sep => trimStr (beforeFirst sep title)
  | none => title

/-! ## URL parsing (models of `urllib.parse.urlparse` / `urljoin`) -/

/-- The components of a parsed URL used by the scraper. -/
structure UrlParts where
  scheme : Str
  netloc : Str
  path : Str
deriving Repr, DecidableEq

/-- Splits a string at the first occurrence of `://`, when present. -/
def splitSchemeAux : Str → Option (Str × Str)
  | [] => none
  | c :: cs =>
    if c = ':' ∧ cs.take 2 = ['/', '/'] then some ([], cs.drop 2)
    else (splitSchemeAux cs).map (fun p => (c :: p.1, p.2))

/-- Characters that terminate the netloc component. -/
def nlChar (c : Char) : Bool := !(c == '/' || c == '?' || c == '#')

/-- Characters that may appear in the path component (query and fragment are
cut off). -/
def pChar (c : Char) : Bool := !(c == '?' || c == '#')

/-- Model of `urllib.parse.urlparse` restricted to the fields the scraper
reads: scheme before the first `://`, netloc up to the first `/`, `?` or `#`,
path up to the first `?` or `#`. A URL with no `://` is parsed as all path. -/
def parseUrl (u : Str) : UrlParts :=
  match splitSchemeAux u with
  | some (sch, rest) =>
    ⟨sch, rest.takeWhile nlChar, (rest.dropWhile nlChar).takeWhile pChar⟩
  | none => ⟨[], [], u.takeWhile pChar⟩

/-- The directory part of a path: everything up to and including the last
slash; `/` for a path with no slash. -/
def dirPath (p : Str) : Str :=
  let d := (p.reverse.dropWhile (fun c => c != '/')).reverse
  if d = [] then st "/" else d

/-- Model of `urllib.parse.urljoin` for the href shapes the scraper meets:
absolute URLs kept, scheme-relative and root-relative resolved against the
base, other hrefs resolved against the base path directory (dot segments are
not normalized). -/
def urljoin (base href : Str) : Str :=
  if containsSub (st "://") href then href
  else if isPre (st "//") href then (parseUrl base).scheme ++ st ":" ++ href
  else if isPre (st "/") href then
    (parseUrl base).scheme ++ st "://" ++ (parseUrl base).netloc ++ href
  else if href = [] then base
  else
    (parseUrl base).scheme ++ st "://" ++ (parseUrl base).netloc ++
      dirPath (parseUrl base).path ++ href

/-- `_extract_company_name`: the `og:site_name` meta content when truthy,
else the split document title, else the first label of the domain after
`netloc.replace("www.", "")`, capitalized. -/
def extract_company_name (doc : Dom) (url : Str) : Str :=
  match ogSiteName doc with
  | some c => trimStr c
  | none =>
    match titleString doc with
    | some s => splitTitleName (trimStr s)
    | none =>
      capitalizeStr
        (beforeFirst (st ".") (replaceAllStr (st "www.") [] (parseUrl url).netloc))

/-! ## Email extraction (`_extract_emails`, scraper.py lines 156-207) -/

/-- Junk local-part markers (`_JUNK_EMAIL_PATTERNS`). -/
def JUNK_EMAIL_PATTERNS : List Str :=
  [st "noreply@", st "no-reply@", st "donotreply@", st "mailer-daemon@",
   st "postmaster@", st "webmaster@", st "hostmaster@"]

/-- Junk domains (`_JUNK_EMAIL_DOMAINS`). -/
def JUNK_EMAIL_DOMAINS : List Str :=
  [st "example.com", st "example.org", st "example.net", st "test.com",
   st "sentry.io"]

/-- Junk file extensions (`_JUNK_EMAIL_EXTENSIONS`). -/
def JUNK_EMAIL_EXTENSIONS : List Str :=
  [st ".png", st ".jpg", st ".jpeg", st ".gif", st ".svg", st ".webp",
   st ".css", st ".js"]

/-- The junk filter applied to each candidate address: a junk marker starts
the address, or the part after the first `@` is a junk domain, or the address
ends with a junk file extension. -/
def isJunkEmail (email : Str) : Bool :=
  JUNK_EMAIL_PATTERNS.any (fun pat => isPre pat email) ||
  (let domain := if '@' ∈ email then afterFirstAt email else []
   domain ∈ JUNK_EMAIL_DOMAINS) ||
  JUNK_EMAIL_EXTENSIONS.any (fun ext => endsWithStr ext email)

/-- A character of the local-part class of the email regex
`[a-zA-Z0-9._%+\-]`. -/
def emailLocalChar (c : Char) : Bool :=
  c.isAlpha || c.isDigit || c == '.' || c == '_' || c == '%' || c == '+' || c == '-'

/-- A character of the domain class of the email regex `[a-zA-Z0-9.\-]`. -/
def emailDomChar (c : Char) : Bool :=
  c.isAlpha || c.isDigit || c == '.' || c == '-'

/-- All ways of splitting a string at a dot: pairs (before, after). -/
def dotSplits : Str → List (Str × Str)
  | [] => []
  | c :: rest =>
    (if c = '.' then [(([] : Str), rest)] else []) ++
      (dotSplits rest).map (fun p => (c :: p.1, p.2))

/-- Attempts to match the email regex
`[a-zA-Z0-9._%+\-]+@[a-zA-Z0-9.\-]+\.[a-zA-Z]{2,}` at the start of `s` with
Python greedy backtracking semantics; returns the match and the remaining
input after it. -/
def matchEmailAt (s : Str) : Option (Str × Str) :=
  let lp := s.takeWhile emailLocalChar
  if lp = [] then none
  else
    match s.drop lp.length with
    | '@' :: r2 =>
      let run := r2.takeWhile emailDomChar
      let rest := r2.drop run.length
      match ((dotSplits run).filter
          (fun p => p.1 ≠ [] ∧ 2 ≤ (p.2.takeWhile Char.isAlpha).length)).getLast? with
      | some (pre, post) =>
        let tld := post.takeWhile Char.isAlpha
        some (lp ++ '@' :: (pre ++ '.' :: tld), post.drop tld.length ++ rest)
      | none => none
    | _ => none

/-- Fuelled scan for `re.findall` on the email regex: leftmost matches,
non-overlapping, continuing after each match. -/
def emailMatchesGo : Nat → Str → List Str
  | 0, _ => []
  | _ + 1, [] => []
  | fuel + 1, c :: rest =>
    match matchEmailAt (c :: rest) with
    | some (m, after) => m :: emailMatchesGo fuel after
    | none => emailMatchesGo fuel rest

/-- `_EMAIL_RE.findall(html)`. -/
def emailMatches (s : Str) : List Str := emailMatchesGo s.length s

/-- The address taken from one `mailto:` href by `_extract_emails`: the href
is stripped, must start (case-insensitively) with `mailto:`, and the part
after it up to any query string is stripped and lowered; kept only when
non-empty and containing `@`. -/
def mailtoEmail (rawHref : Str) : Option Str :=
  let href := trimStr rawHref
  if isPre (st "mailto:") (lowerStr href) then
    let email := lowerStr (trimStr (beforeFirst (st "?") (href.drop 7)))
    if email ≠ [] ∧ '@' ∈ email then some email else none
  else none

/-- All anchor elements with an `href` attribute, in document order, as
(href value, anchor text) pairs (`soup.find_all("a", href=True)`). -/
def anchorHrefs : Dom → List (Str × Str)
  | .nil => []
  | .text _ next => anchorHrefs next
  | .elem t attrs ch next =>
    (if t = st "a" then
      match attrOf attrs (st "href") with
      | some h => [(h, stripJoin ch)]
      | none => []
    else []) ++ anchorHrefs ch ++ anchorHrefs next

/-- `_extract_emails`: `mailto:` targets first, then regex matches over the
raw markup, deduplicated preserving first-seen order, lowered, junk
filtered. -/
def extract_emails (h : Html) : List Str :=
  let found := insertAll
    (insertAll [] ((anchorHrefs h.doc).filterMap (fun a => mailtoEmail a.1)))
    ((emailMatches h.raw).map lowerStr)
  found.filter (fun e => !(isJunkEmail e))

/-! ## Link discovery (`_discover_links`, scraper.py lines 210-248) -/

/-- One iteration of the link-discovery loop over an (href, anchor text)
pair: skip empty/anchor/mailto/tel/javascript hrefs, resolve against the
base, keep only exact (lowercased) netloc matches, classify by the first
matching keyword against the lowered path and anchor text, and insert the
cleaned URL when new and different from the base. -/
def discoverStep (base_url base_domain : Str) (acc : List (Str × Str))
    (a : Str × Str) : List (Str × Str) :=
  let href := trimStr a.1
  if href = [] || isPre (st "#") href || isPre (st "mailto:") href ||
      isPre (st "tel:") href || isPre (st "javascript:") href then acc
  else
    let parsed := parseUrl (urljoin base_url href)
    if lowerStr parsed.netloc ≠ base_domain then acc
    else
      let path_lower := rstripSlash (lowerStr parsed.path)
      let link_text := lowerStr a.2
      match PAGE_KEYWORDS.find?
          (fun kw => containsSub kw.1 path_lower || containsSub kw.1 link_text) with
      | some kw =>
        let clean_url :=
          rstripSlash (parsed.scheme ++ st "://" ++ parsed.netloc ++ parsed.path)
        if clean_url ∉ acc.map Prod.fst ∧ clean_url ≠ rstripSlash base_url then
          acc ++ [(clean_url, kw.2)]
        else acc
      | none => acc

/-- `_discover_links`: ordered (URL, page type) pairs discovered from the
homepage, capped at `MAX_PAGES - 1`. -/
def discover_links (doc : Dom) (base_url : Str) : List (Str × Str) :=
  let base_domain := lowerStr (parseUrl base_url).netloc
  ((anchorHrefs doc).foldl (discoverStep base_url base_domain) []).take
    (MAX_PAGES - 1)

/-! ## Data model (src/src/models.py) -/

/-- `ScrapedPage` (models.py lines 8-13). -/
structure ScrapedPage where
  url : Str
  title : Str
  content : Str
  page_type : Str
deriving Repr, DecidableEq

/-- `ScrapedWebsite` (models.py lines 16-21). These four fields are the only
fields the pydantic model declares. -/
structure ScrapedWebsite where
  base_url : Str
  company_name : Str
  pages : List ScrapedPage
  raw_text_summary : Str
deriving Repr, DecidableEq

/-- The `ScrapedWebsite(...)` constructor call made by `scrape_website`
(scraper.py lines 375-381). It passes a `contact_emails` keyword argument,
but `ScrapedWebsite` declares no such field, and a pydantic `BaseModel`
silently ignores unknown keyword arguments by default (`extra="ignore"`), so
the argument is dropped. -/
def ScrapedWebsite.fromKwargs (base_url company_name : Str)
    (pages : List ScrapedPage) (raw_text_summary : Str)
    (contact_emails : List Str) : ScrapedWebsite :=
  ⟨base_url, company_name, pages, raw_text_summary⟩

/-! ## Fetching (`_fetch_page`, `_try_playwright_fetch`) -/

/-- The outcome of one `session.get` call: a raised-and-caught network error,
or a successful response with its content type and body. -/
inductive FetchOutcome where
  | timeout
  | httpError
  | requestError
  | success (contentType : Str) (body : Html)

/-- `_fetch_page`: every network failure is converted to no content, and a
successful response counts only when its content type indicates HTML. -/
def fetch_page (o : FetchOutcome) : Option Html :=
  match o with
  | .success ct body =>
    if containsSub (st "text/html") ct || containsSub (st "application/xhtml") ct
    then some body else none
  | _ => none

/-- The network oracle for one crawl: the `session.get` outcome per URL and
the playwright render result per URL (`none` models an unavailable or failed
render). -/
structure FetchEnv where
  fetchPage : Str → FetchOutcome
  playwright : Str → Option Html

/-- Python truthiness of an optional HTML string: `None` and the empty
string are falsy. -/
def pyTruthy (o : Option Html) : Bool :=
  match o with
  | none => false
  | some h => h.raw ≠ []

/-! ## Site crawler (`scrape_website`, scraper.py lines 271-384) -/

/-- URL normalization at the top of `scrape_website`: prepend `https://` when
no scheme marker is present, strip trailing slashes. -/
def normalizeUrl (u : Str) : Str :=
  rstripSlash (if isPre (st "http://") u || isPre (st "https://") u then u
    else st "https://" ++ u)

/-- The homepage HTML the crawl proceeds with: the plain fetch, replaced by
the playwright fallback when falsy and the fallback is enabled; `none` when
the final value is still falsy (`if not homepage_html: return ...`). -/
def homepageHtml (env : FetchEnv) (url0 : Str) (use_playwright_fallback : Bool) :
    Option Html :=
  let url := normalizeUrl url0
  let h0 := fetch_page (env.fetchPage url)
  let h1 := if !pyTruthy h0 && use_playwright_fallback then env.playwright url
    else h0
  if pyTruthy h1 then h1 else none

/-- The thin-content retry (scraper.py lines 314-323): when the homepage text
is under 100 characters and the fallback is enabled, render the page and keep
the rendered HTML exactly when it is truthy and its extracted text is
strictly longer. -/
def finalHomepage (env : FetchEnv) (url : Str) (use_playwright_fallback : Bool)
    (html : Html) : Html :=
  if (extract_text html.doc).length < 100 ∧ use_playwright_fallback then
    match env.playwright url with
    | some pw =>
      if pw.raw ≠ [] ∧ (extract_text html.doc).length < (extract_text pw.doc).length
      then pw else html
    | none => html
  else html

/-- The secondary-page loop (scraper.py lines 339-360): for each discovered
link in order, fetch; skip falsy HTML and pages whose extracted text is under
30 characters; otherwise append a page record and merge the page's emails. -/
def crawlSecondary (env : FetchEnv) :
    List (Str × Str) → List ScrapedPage → List Str → List ScrapedPage × List Str
  | [], pages, emails => (pages, emails)
  | (page_url, page_type) :: rest, pages, emails =>
    match fetch_page (env.fetchPage page_url) with
    | none => crawlSecondary env rest pages emails
    | some h =>
      if h.raw = [] then crawlSecondary env rest pages emails
      else
        let text := extract_text h.doc
        if text.length < 30 then crawlSecondary env rest pages emails
        else
          crawlSecondary env rest
            (pages ++ [⟨page_url, extract_title h.doc, text, page_type⟩])
            (insertAll emails (extract_emails h))

/-- The labeled block contributed by one page record to the text summary. -/
def pageBlock (p : ScrapedPage) : Str :=
  st "=== " ++ upperStr p.page_type ++ st ": " ++ p.title ++ st " ===\n" ++
    p.content

/-- The combined summary (scraper.py lines 362-367): the labeled blocks of
all page records in order, joined by blank lines. -/
def buildSummary (pages : List ScrapedPage) : Str :=
  joinSep (st "\n\n") (pages.map pageBlock)

/-- The locals of a successful crawl, in the order they are assembled:
company name, page records, text summary, and the deduplicated contact email
list; `none` when no homepage HTML was obtained. -/
def crawlLocals (env : FetchEnv) (url0 : Str) (use_playwright_fallback : Bool) :
    Option (Str × List ScrapedPage × Str × List Str) :=
  let url := normalizeUrl url0
  match homepageHtml env url0 use_playwright_fallback with
  | none => none
  | some html0 =>
    let html := finalHomepage env url use_playwright_fallback html0
    let homepage_text := extract_text html.doc
    let company_name := extract_company_name html.doc url
    let pages0 : List ScrapedPage :=
      [⟨url, extract_title html.doc, homepage_text, st "homepage"⟩]
    let emails0 := insertAll [] (extract_emails html)
    let linked := discover_links html.doc url
    let (pages, all_emails) := crawlSecondary env linked pages0 emails0
    some (company_name, pages, buildSummary pages, all_emails)

/-- `scrape_website`: the empty default corpus when the homepage could not be
fetched, otherwise the corpus assembled from the crawl locals through the
`ScrapedWebsite` constructor (which drops the `contact_emails` argument). -/
def scrape_website (env : FetchEnv) (url0 : Str)
    (use_playwright_fallback : Bool) : ScrapedWebsite :=
  let url := normalizeUrl url0
  match crawlLocals env url0 use_playwright_fallback with
  | none => ⟨url, [], [], []⟩
  | some (company_name, pages, raw_summary, contact_emails) =>
    ScrapedWebsite.fromKwargs url company_name pages raw_summary contact_emails

/-! ## Lemmas: line splitting and joining -/

/-- A string with no line terminator. -/
def termFree (l : Str) : Prop := ∀ c ∈ l, c ≠ '\n' ∧ c ≠ '\r'

theorem splitLinesGo_cons_nl (rest acc : Str) :
    splitLinesGo ('\n' :: rest) acc = acc.reverse :: splitLinesGo rest [] := rfl

theorem splitLinesGo_cons_other (c : Char) (rest acc : Str) (h1 : c ≠ '\n')
    (h2 : c ≠ '\r') :
    splitLinesGo (c :: rest) acc = splitLinesGo rest (c :: acc) := by
  rcases rest with _ | ⟨d, rest'⟩ <;> simp [splitLinesGo, h1, h2]

theorem splitLinesGo_append (x s acc : Str) (hx : termFree x) :
    splitLinesGo (x ++ s) acc = splitLinesGo s (x.reverse ++ acc) := by
  induction x generalizing acc with
  | nil => simp
  | cons c cs ih =>
    have hc := hx c (by simp)
    rw [List.cons_append, splitLinesGo_cons_other c _ _ hc.1 hc.2,
      ih _ (fun d hd => hx d (by simp [hd]))]
    simp

theorem splitLines_single (s : Str) (hs : s ≠ []) (h : termFree s) :
    splitLines s = [s] := by
  have hgo := splitLinesGo_append s [] [] h
  simp only [List.append_nil] at hgo
  rw [splitLines, hgo, splitLinesGo]
  simp [hs]

theorem st_nl : st "\n" = ['\n'] := rfl

theorem joinSep_cons_cons (sep : Str) (x y : Str) (ys : List Str) :
    joinSep sep (x :: y :: ys) = x ++ sep ++ joinSep sep (y :: ys) := rfl

theorem splitLines_joinSep (L : List Str) (hne : ∀ l ∈ L, l ≠ [])
    (htf : ∀ l ∈ L, termFree l) : splitLines (joinSep (st "\n") L) = L := by
  induction L with
  | nil => rfl
  | cons x xs ih =>
    cases xs with
    | nil => exact splitLines_single x (hne x (by simp)) (htf x (by simp))
    | cons y ys =>
      rw [joinSep_cons_cons, st_nl]
      have hx := htf x (by simp)
      have : x ++ ['\n'] ++ joinSep ['\n'] (y :: ys) =
          x ++ ('\n' :: joinSep ['\n'] (y :: ys)) := by simp
      rw [splitLines, this, splitLinesGo_append x _ [] hx,
        List.append_nil, splitLinesGo_cons_nl, List.reverse_reverse]
      have ihr := ih (fun l hl => hne l (by simp [hl]))
        (fun l hl => htf l (by simp [hl]))
      rw [st_nl] at ihr
      rw [show splitLinesGo (joinSep ['\n'] (y :: ys)) [] =
        splitLines (joinSep ['\n'] (y :: ys)) from rfl, ihr]

theorem splitLinesGo_cons_cr (rest acc : Str) (h : rest.head? ≠ some '\n') :
    splitLinesGo ('\r' :: rest) acc = acc.reverse :: splitLinesGo rest [] := by
  rcases rest with _ | ⟨d, rest'⟩
  · rfl
  · have hd : d ≠ '\n' := by simpa using h
    simp [splitLinesGo, hd]

theorem splitLinesGo_cons_crnl (rest acc : Str) :
    splitLinesGo ('\r' :: '\n' :: rest) acc = acc.reverse :: splitLinesGo rest [] :=
  rfl

theorem splitLinesGo_termFree (s acc : Str) (hacc : termFree acc) :
    ∀ piece ∈ splitLinesGo s acc, termFree piece := by
  induction s, acc using splitLinesGo.induct with
  | case1 =>
    intro piece hp
    simp [splitLinesGo] at hp
  | case2 acc hne =>
    intro piece hp
    rw [splitLinesGo, if_neg hne] at hp
    simp only [List.mem_singleton] at hp
    subst hp
    exact fun c hc => hacc c (List.mem_reverse.mp hc)
  | case3 rest acc ih =>
    intro piece hp
    rw [splitLinesGo_cons_crnl] at hp
    rcases List.mem_cons.mp hp with h | h
    · subst h; exact fun c hc => hacc c (List.mem_reverse.mp hc)
    · exact ih (fun c hc => absurd hc (List.not_mem_nil c)) piece h
  | case4 rest acc ih =>
    intro piece hp
    rw [splitLinesGo_cons_nl] at hp
    rcases List.mem_cons.mp hp with h | h
    · subst h; exact fun c hc => hacc c (List.mem_reverse.mp hc)
    · exact ih (fun c hc => absurd hc (List.not_mem_nil c)) piece h
  | case5 rest acc hne ih =>
    intro piece hp
    rw [splitLinesGo_cons_cr rest acc (by
      rcases rest with _ | ⟨d, r⟩
      · simp
      · simp only [List.head?_cons, ne_eq, Option.some.injEq]
        intro hd
        exact hne r (by rw [hd]))] at hp
    rcases List.mem_cons.mp hp with h | h
    · subst h; exact fun c hc => hacc c (List.mem_reverse.mp hc)
    · exact ih (fun c hc => absurd hc (List.not_mem_nil c)) piece h
  | case6 c rest acc h1 h2 h3 ih =>
    intro piece hp
    rw [splitLinesGo_cons_other c rest acc (fun h => h2 h) (fun h => h3 h)] at hp
    refine ih ?_ piece hp
    intro d hd
    rcases List.mem_cons.mp hd with h | h
    · subst h; exact ⟨fun h => h2 h, fun h => h3 h⟩
    · exact hacc d h

theorem mem_trimStr {x : Char} {l : Str} (h : x ∈ trimStr l) : x ∈ l := by
  unfold trimStr at h
  rw [List.mem_reverse] at h
  have h1 := (List.dropWhile_sublist isSpaceChar
    (l := (l.dropWhile isSpaceChar).reverse)).subset h
  rw [List.mem_reverse] at h1
  exact (List.dropWhile_sublist isSpaceChar).subset h1

theorem cleanedLines_termFree (doc : Dom) :
    ∀ l ∈ cleanedLines doc, termFree l := by
  intro l hl
  simp only [cleanedLines, List.mem_filter, List.mem_map] at hl
  obtain ⟨⟨⟨l', hl', rfl⟩, _⟩, _⟩ := hl
  have htf := splitLinesGo_termFree _ [] (by intro c hc; simp at hc) l' hl'
  intro c hc
  exact htf c (mem_trimStr hc)

theorem cleanedLines_three_le (doc : Dom) :
    ∀ l ∈ cleanedLines doc, 3 ≤ l.length := by
  intro l hl
  simp only [cleanedLines, List.mem_filter, decide_eq_true_eq] at hl
  omega

theorem cleanedLines_ne_nil (doc : Dom) : ∀ l ∈ cleanedLines doc, l ≠ [] := by
  intro l hl
  have := cleanedLines_three_le doc l hl
  intro h
  rw [h] at this
  simp at this

theorem cleanedText_splitLines (doc : Dom) :
    splitLines (cleanedText doc) = cleanedLines doc :=
  splitLines_joinSep _ (cleanedLines_ne_nil doc) (cleanedLines_termFree doc)

theorem truncationMarker_length : truncationMarker.length = 24 := rfl

theorem extract_text_of_le (doc : Dom)
    (h : (cleanedText doc).length ≤ MAX_CONTENT_LENGTH) :
    extract_text doc = cleanedText doc := by
  unfold extract_text
  rw [if_neg (by omega)]

theorem extract_text_of_big (doc : Dom)
    (h : MAX_CONTENT_LENGTH < (cleanedText doc).length) :
    extract_text doc =
      (cleanedText doc).take MAX_CONTENT_LENGTH ++ truncationMarker := by
  unfold extract_text
  rw [if_pos h]

theorem extract_text_length_of_big (doc : Dom)
    (h : MAX_CONTENT_LENGTH < (cleanedText doc).length) :
    (extract_text doc).length =
      MAX_CONTENT_LENGTH + truncationMarker.length := by
  rw [extract_text_of_big doc h, List.length_append, List.length_take]
  have : min MAX_CONTENT_LENGTH (cleanedText doc).length = MAX_CONTENT_LENGTH := by
    omega
  rw [this]

theorem dropWhile_of_head_not {p : Char → Bool} {l : Str}
    (h : ∀ c ∈ l, p c = false) : l.dropWhile p = l := by
  cases l with
  | nil => rfl
  | cons c cs =>
    rw [List.dropWhile_cons, h c (by simp)]
    simp

theorem trimStr_of_no_space {l : Str} (h : ∀ c ∈ l, isSpaceChar c = false) :
    trimStr l = l := by
  unfold trimStr
  rw [dropWhile_of_head_not h,
    dropWhile_of_head_not (by intro c hc; exact h c (List.mem_reverse.mp hc)),
    List.reverse_reverse]

theorem cleanedLines_single_text (s : Str)
    (hns : ∀ c ∈ s, isSpaceChar c = false) (htf : termFree s)
    (h3 : 3 ≤ s.length) : cleanedLines (Dom.text s .nil) = [s] := by
  have htrim := trimStr_of_no_space hns
  have hne : s ≠ [] := by
    intro h; rw [h] at h3; simp at h3
  have hlen : (fun l : Str => decide (2 < l.length)) s = true := by
    rw [decide_eq_true_eq]; omega
  have hnefn : (fun l : Str => decide (l ≠ [])) s = true := by
    rw [decide_eq_true_eq]; exact hne
  simp only [cleanedLines, getTextSep]
  rw [show texts (stripElems (Dom.text s .nil)) = [s] from rfl]
  rw [List.map_cons, List.map_nil, htrim]
  rw [@List.filter_cons_of_pos _ (fun l : Str => decide (l ≠ [])) s [] hnefn,
    List.filter_nil]
  rw [show joinSep (st "\n") [s] = s from rfl]
  rw [splitLines_single s hne htf]
  rw [List.map_cons, List.map_nil, htrim]
  rw [@List.filter_cons_of_pos _ (fun l : Str => decide (l ≠ [])) s [] hnefn,
    List.filter_nil]
  rw [@List.filter_cons_of_pos _ (fun l : Str => decide (2 < l.length)) s [] hlen,
    List.filter_nil]

theorem cleanedText_single_text (s : Str)
    (hns : ∀ c ∈ s, isSpaceChar c = false) (htf : termFree s)
    (h3 : 3 ≤ s.length) : cleanedText (Dom.text s .nil) = s := by
  unfold cleanedText
  rw [cleanedLines_single_text s hns htf h3]
  rfl

/-- A page consisting of a single text run of 5001 identical characters. -/
def thickDoc : Dom := Dom.text (List.replicate 5001 'x') .nil

theorem cleanedText_thickDoc :
    cleanedText thickDoc = List.replicate 5001 'x' := by
  have hmem : ∀ c ∈ List.replicate 5001 'x', c = 'x' := fun c hc =>
    List.eq_of_mem_replicate hc
  refine cleanedText_single_text _ ?_ ?_ ?_
  · intro c hc; rw [hmem c hc]; rfl
  · intro c hc; rw [hmem c hc]; exact ⟨by decide, by decide⟩
  · rw [List.length_replicate]; omega

/-! ## Claim C2 -/

/-- C2 (counterexample): the Content Normalizer's total output can exceed the
5000-character maximum content length. On a page whose text is a single run
of 5001 identical characters, the output is 5024 characters long: the source
first cuts the text to 5000 characters and then appends the 24-character
truncation marker on top of the cap, so the claimed bound of 5000 characters
including the marker is violated. -/
theorem extract_text_exceeds_cap :
    (extract_text thickDoc).length = 5024 ∧ MAX_CONTENT_LENGTH = 5000 := by
  have h : MAX_CONTENT_LENGTH < (cleanedText thickDoc).length := by
    rw [cleanedText_thickDoc, List.length_replicate,
      show MAX_CONTENT_LENGTH = 5000 from rfl]
    omega
  have hl := extract_text_length_of_big thickDoc h
  rw [truncationMarker_length, show MAX_CONTENT_LENGTH = 5000 from rfl] at hl
  exact ⟨hl, rfl⟩

/-- C2 (amended): for every parsed HTML input, the Content Normalizer's
output never exceeds the maximum content length plus the length of the
truncation marker (5000 + 24 characters), and whenever the output fits the
5000-character cap (that is, no truncation occurred) every line of the output
is at least 3 characters long. When truncation occurs the cut can fall inside
a line, so only the bound 5024 holds. -/
theorem extract_text_bounds (doc : Dom) :
    (extract_text doc).length ≤ MAX_CONTENT_LENGTH + truncationMarker.length ∧
    ((extract_text doc).length ≤ MAX_CONTENT_LENGTH →
      ∀ l ∈ splitLines (extract_text doc), 3 ≤ l.length) := by
  by_cases h : MAX_CONTENT_LENGTH < (cleanedText doc).length
  · constructor
    · rw [extract_text_length_of_big doc h]
    · intro hle
      rw [extract_text_length_of_big doc h, truncationMarker_length] at hle
      omega
  · push_neg at h
    rw [extract_text_of_le doc h]
    constructor
    · exact le_trans h (Nat.le_add_right _ _)
    · intro _ l hl
      rw [cleanedText_splitLines] at hl
      exact cleanedLines_three_le doc l hl

/-- Witness for `extract_text_bounds`: on the single-line page "hello world"
the normalizer does not truncate, and the line-length bound is discharged at
that concrete input. -/
theorem extract_text_bounds_witness : 3 ≤ (st "hello world").length :=
  (extract_text_bounds (Dom.text (st "hello world") .nil)).2 (by decide)
    (st "hello world") (by decide)

theorem insertNew_nodup {l : List Str} {x : Str} (h : l.Nodup) :
    (insertNew l x).Nodup := by
  unfold insertNew
  split
  · exact h
  · simp [List.nodup_append, h]
    intro hx
    simp_all

theorem insertAll_nodup : ∀ (xs l : List Str), l.Nodup → (insertAll l xs).Nodup := by
  intro xs
  induction xs with
  | nil => intro l h; exact h
  | cons x xs ih =>
    intro l h
    exact ih (insertNew l x) (insertNew_nodup h)

theorem mem_insertNew_left {l : List Str} {x y : Str} (h : x ∈ l) :
    x ∈ insertNew l y := by
  unfold insertNew
  split
  · exact h
  · exact List.mem_append_left _ h

theorem mem_insertNew_self (l : List Str) (y : Str) : y ∈ insertNew l y := by
  unfold insertNew
  split
  · assumption
  · simp

theorem insertAll_cons (l : List Str) (x : Str) (xs : List Str) :
    insertAll l (x :: xs) = insertAll (insertNew l x) xs := rfl

theorem mem_insertAll_left : ∀ {xs l : List Str} {x : Str}, x ∈ l →
    x ∈ insertAll l xs := by
  intro xs
  induction xs with
  | nil => intro l x h; exact h
  | cons y ys ih =>
    intro l x h
    rw [insertAll_cons]
    exact ih (mem_insertNew_left h)

theorem mem_insertAll_right : ∀ {xs l : List Str} {x : Str}, x ∈ xs →
    x ∈ insertAll l xs := by
  intro xs
  induction xs with
  | nil => intro l x h; simp at h
  | cons y ys ih =>
    intro l x h
    rw [insertAll_cons]
    rcases List.mem_cons.mp h with rfl | h
    · exact mem_insertAll_left (mem_insertNew_self l x)
    · exact ih h

theorem mem_insertNew_elim {l : List Str} {x y : Str} (h : x ∈ insertNew l y) :
    x ∈ l ∨ x = y := by
  unfold insertNew at h
  split at h
  · exact Or.inl h
  · rcases List.mem_append.mp h with h | h
    · exact Or.inl h
    · simp at h; exact Or.inr h

theorem mem_insertAll_elim : ∀ {xs l : List Str} {x : Str},
    x ∈ insertAll l xs → x ∈ l ∨ x ∈ xs := by
  intro xs
  induction xs with
  | nil => intro l x h; exact Or.inl h
  | cons y ys ih =>
    intro l x h
    rw [insertAll_cons] at h
    rcases ih h with h | h
    · rcases mem_insertNew_elim h with h | rfl
      · exact Or.inl h
      · simp
    · simp [h]

theorem asciiPairs_snd_no_find :
    ∀ q ∈ asciiPairs, asciiPairs.find? (fun p => p.1 == q.2) = none := by
  decide

theorem lowerChar_fixed (c : Char) : lowerChar (lowerChar c) = lowerChar c := by
  cases hf : asciiPairs.find? (fun p => p.1 == c) with
  | none =>
    have h1 : lowerChar c = c := by unfold lowerChar; rw [hf]; rfl
    simp [h1]
  | some q =>
    have h1 : lowerChar c = q.2 := by unfold lowerChar; rw [hf]; rfl
    have hq : q ∈ asciiPairs := List.mem_of_find?_eq_some hf
    have hnone : asciiPairs.find? (fun p => p.1 == q.2) = none :=
      asciiPairs_snd_no_find q hq
    have h2 : lowerChar q.2 = q.2 := by unfold lowerChar; rw [hnone]; rfl
    rw [h1, h2]

theorem lowerStr_fixed (s : Str) : lowerStr (lowerStr s) = lowerStr s := by
  unfold lowerStr
  rw [List.map_map]
  exact List.map_congr_left (fun c _ => lowerChar_fixed c)

theorem mailtoEmail_lower {r e : Str} (h : mailtoEmail r = some e) :
    lowerStr e = e := by
  simp only [mailtoEmail] at h
  split_ifs at h with h1 h2
  · rw [← Option.some.inj h, lowerStr_fixed]

theorem extract_emails_nodup (h : Html) : (extract_emails h).Nodup := by
  unfold extract_emails
  exact List.Nodup.filter _ (insertAll_nodup _ _ (insertAll_nodup _ _ List.nodup_nil))

theorem extract_emails_props (h : Html) :
    ∀ e ∈ extract_emails h, lowerStr e = e ∧ isJunkEmail e = false := by
  intro e he
  unfold extract_emails at he
  have hf := List.mem_filter.mp he
  refine ⟨?_, by simpa using hf.2⟩
  rcases mem_insertAll_elim hf.1 with h1 | h1
  · rcases mem_insertAll_elim h1 with h2 | h2
    · simp at h2
    · obtain ⟨a, _, ha⟩ := List.mem_filterMap.mp h2
      exact mailtoEmail_lower ha
  · obtain ⟨m, _, rfl⟩ := List.mem_map.mp h1
    exact lowerStr_fixed m

theorem extract_emails_mailto (h : Html) (a : Str × Str)
    (hmem : a ∈ anchorHrefs h.doc) (e : Str) (he : mailtoEmail a.1 = some e)
    (hj : isJunkEmail e = false) : e ∈ extract_emails h := by
  unfold extract_emails
  refine List.mem_filter.mpr ⟨?_, by simp [hj]⟩
  exact mem_insertAll_left
    (mem_insertAll_right (List.mem_filterMap.mpr ⟨a, hmem, he⟩))


/-! ## Claim C7 -/

/-- The four-candidate scenario: `noreply@x.com` and `real@x.com` as
`mailto:` links, `test@example.com` and `icon@2x.png` in page text, with the
raw markup scanned by the regex pass carrying all four. -/
def junkScenario : Html :=
  ⟨st "<body><a href=\"mailto:noreply@x.com\">no reply</a><a href=\"mailto:real@x.com\">contact</a>write test@example.com or icon@2x.png</body>",
   .elem (st "body") []
     (.elem (st "a") [(st "href", st "mailto:noreply@x.com")]
        (.text (st "no reply") .nil)
        (.elem (st "a") [(st "href", st "mailto:real@x.com")]
          (.text (st "contact") .nil)
          (.text (st "write test@example.com or icon@2x.png") .nil))) .nil⟩

/-- The local part of an address: the part before the first `@`. Follows the
claim wording; used only to state what claim C7 asserts about the junk
category of asset-extension addresses. -/
def localPart (e : Str) : Str := e.takeWhile (fun c => c != '@')

/-- A page holding only the address `logo.png@acme.com` in its text. -/
def pngLocalPage : Html :=
  ⟨st "contact logo.png@acme.com here",
   .text (st "contact logo.png@acme.com here") .nil⟩

/-- C7 (counterexample): an address whose local part ends in an image file
extension is NOT excluded by the extractor. The filter tests whether the
whole address ends with the extension (`email.endswith(ext)` in the source),
so `logo.png@acme.com` — local part `logo.png`, ending in `.png` — passes the
filter and is returned, contradicting the claim that every address whose
local part ends in an asset extension is excluded. -/
theorem extract_emails_keeps_png_local :
    extract_emails pngLocalPage = [st "logo.png@acme.com"] ∧
    endsWithStr (st ".png") (localPart (st "logo.png@acme.com")) = true := by
  decide

/-- C7 (amended): email extraction returns a lower-cased, deduplicated list
from which every candidate in a listed junk category is excluded, where the
asset-extension category is: addresses that END (on the domain side) with an
image/stylesheet/script file extension — not addresses whose local part ends
with one. Any non-junk `mailto:` target is always included, and on the
four-candidate scenario the result is exactly `[real@x.com]`. -/
theorem extract_emails_spec :
    (∀ h : Html, (extract_emails h).Nodup) ∧
    (∀ h : Html, ∀ e ∈ extract_emails h, lowerStr e = e ∧ isJunkEmail e = false) ∧
    (∀ (h : Html) (a : Str × Str), a ∈ anchorHrefs h.doc →
      ∀ e, mailtoEmail a.1 = some e → isJunkEmail e = false →
        e ∈ extract_emails h) ∧
    extract_emails junkScenario = [st "real@x.com"] :=
  ⟨extract_emails_nodup, extract_emails_props, extract_emails_mailto, by decide⟩

/-- Witness for `extract_emails_spec`: the mailto-inclusion part applied on
the four-candidate scenario puts `real@x.com` in the result. -/
theorem extract_emails_spec_witness :
    st "real@x.com" ∈ extract_emails junkScenario :=
  extract_emails_spec.2.2.1 junkScenario
    (st "mailto:real@x.com", st "contact") (by decide)
    (st "real@x.com") (by decide) (by decide)

/-! ## Claim C6 -/

theorem extract_company_name_og (doc : Dom) (url : Str) (c : Str)
    (hog : ogSiteName doc = some c) :
    extract_company_name doc url = trimStr c := by
  unfold extract_company_name
  rw [hog]

theorem extract_company_name_title (doc : Dom) (url : Str) (s : Str)
    (hog : ogSiteName doc = none) (ht : titleString doc = some s) :
    extract_company_name doc url = splitTitleName (trimStr s) := by
  unfold extract_company_name
  rw [hog, ht]

theorem extract_company_name_domain (doc : Dom) (url : Str)
    (hog : ogSiteName doc = none) (ht : titleString doc = none) :
    extract_company_name doc url =
      capitalizeStr
        (beforeFirst (st ".")
          (replaceAllStr (st "www.") [] (parseUrl url).netloc)) := by
  unfold extract_company_name
  rw [hog, ht]

/-- A head with both an `og:site_name` meta tag and a title tag. -/
def metaAndTitleDoc : Dom :=
  .elem (st "head") []
    (.elem (st "meta")
      [(st "property", st "og:site_name"), (st "content", st "Acme Corp")] .nil
      (.elem (st "title") [] (.text (st "Other Name | Tagline") .nil) .nil)) .nil

/-- C6 (counterexample): the domain fallback does not strip only a leading
`www.` label — the source runs `netloc.replace("www.", "")`, which removes
every occurrence of the substring `www.`. For `https://awww.com`, which has
no leading `www.` label, the claim predicts `Awww`, but the code removes the
embedded `www.` from `awww.com`, leaving `acom`, and returns `Acom`. -/
theorem extract_company_name_www_replace :
    extract_company_name .nil (st "https://awww.com") = st "Acom" ∧
    st "Acom" ≠ st "Awww" := by
  decide

/-- C6 (amended): company-name extraction follows first-match-wins resolution
order: a site-name meta tag present with a non-empty content value is
returned trimmed, ignoring the title; otherwise a title with a truthy string
is split on the first of the prioritized separators (the part before it,
trimmed, or the whole trimmed title without separator); otherwise the result
is the first label of the URL's domain after removing every occurrence of the
substring `www.` (in the common case, a leading `www.` label), capitalized —
so `https://www.coolstartup.io` still yields `Coolstartup`. -/
theorem extract_company_name_resolution :
    (∀ (doc : Dom) (url c : Str), ogSiteName doc = some c →
      extract_company_name doc url = trimStr c) ∧
    (∀ (doc : Dom) (url s : Str), ogSiteName doc = none →
      titleString doc = some s →
      extract_company_name doc url = splitTitleName (trimStr s)) ∧
    (∀ (doc : Dom) (url : Str), ogSiteName doc = none →
      titleString doc = none →
      extract_company_name doc url =
        capitalizeStr
          (beforeFirst (st ".")
            (replaceAllStr (st "www.") [] (parseUrl url).netloc))) ∧
    extract_company_name metaAndTitleDoc (st "https://x.com") = st "Acme Corp" ∧
    extract_company_name .nil (st "https://www.coolstartup.io") =
      st "Coolstartup" :=
  ⟨fun doc url c h => extract_company_name_og doc url c h,
   fun doc url s h1 h2 => extract_company_name_title doc url s h1 h2,
   fun doc url h1 h2 => extract_company_name_domain doc url h1 h2,
   by decide, by decide⟩

/-- Witness for `extract_company_name_resolution`: the domain-fallback branch
applied at the concrete URL of the spec example. -/
theorem extract_company_name_resolution_witness :
    extract_company_name .nil (st "https://www.coolstartup.io") =
      capitalizeStr
        (beforeFirst (st ".")
          (replaceAllStr (st "www.")
            [] (parseUrl (st "https://www.coolstartup.io")).netloc)) :=
  extract_company_name_resolution.2.2.1 .nil
    (st "https://www.coolstartup.io") (by decide) (by decide)

theorem splitSchemeAux_decomp : ∀ {u sch rest : Str},
    splitSchemeAux u = some (sch, rest) → u = sch ++ ':' :: '/' :: '/' :: rest := by
  intro u
  induction u with
  | nil => intro sch rest h; simp [splitSchemeAux] at h
  | cons c cs ih =>
    intro sch rest h
    unfold splitSchemeAux at h
    split at h
    · rename_i hc
      rw [Option.some.injEq] at h
      cases h
      rw [hc.1, List.nil_append]
      conv_lhs => rw [← List.take_append_drop 2 cs]
      rw [hc.2]
      rfl
    · rw [Option.map_eq_some'] at h
      obtain ⟨⟨p1, p2⟩, hp, heq⟩ := h
      cases heq
      rw [ih hp]
      rfl

theorem splitSchemeAux_scheme_none : ∀ {u sch rest : Str},
    splitSchemeAux u = some (sch, rest) → splitSchemeAux sch = none := by
  intro u
  induction u with
  | nil => intro sch rest h; simp [splitSchemeAux] at h
  | cons c cs ih =>
    intro sch rest h
    unfold splitSchemeAux at h
    split at h
    · rw [Option.some.injEq] at h
      cases h
      rfl
    · rename_i hnc
      rw [Option.map_eq_some'] at h
      obtain ⟨⟨p1, p2⟩, hp, heq⟩ := h
      cases heq
      have hsub := ih hp
      have hdec := splitSchemeAux_decomp hp
      unfold splitSchemeAux
      split
      · rename_i hc
        exfalso
        rcases p1 with _ | ⟨a, _ | ⟨b, t⟩⟩
        · simp at hc
        · simp at hc
        · apply hnc
          refine ⟨hc.1, ?_⟩
          have : cs.take 2 = [a, b] := by
            rw [hdec]
            rfl
          rw [this]
          simpa using hc.2
      · rw [hsub]
        rfl

theorem splitSchemeAux_append : ∀ {sch : Str}, splitSchemeAux sch = none →
    ∀ rest : Str,
      splitSchemeAux (sch ++ ':' :: '/' :: '/' :: rest) = some (sch, rest) := by
  intro sch
  induction sch with
  | nil =>
    intro _ rest
    rw [List.nil_append]
    unfold splitSchemeAux
    rw [if_pos ⟨rfl, rfl⟩]
    rfl
  | cons c sch' ih =>
    intro h rest
    have hparts : ¬(c = ':' ∧ sch'.take 2 = ['/', '/']) ∧ splitSchemeAux sch' = none := by
      unfold splitSchemeAux at h
      constructor
      · intro hc
        rw [if_pos hc] at h
        simp at h
      · by_cases hc : c = ':' ∧ sch'.take 2 = ['/', '/']
        · rw [if_pos hc] at h; simp at h
        · rw [if_neg hc] at h
          exact Option.map_eq_none'.mp h
    rw [List.cons_append]
    unfold splitSchemeAux
    rw [if_neg ?hcond]
    case hcond =>
      intro hc
      rcases sch' with _ | ⟨a, _ | ⟨b, t⟩⟩
      · simp at hc
      · simp at hc
      · apply hparts.1
        refine ⟨hc.1, ?_⟩
        have : (a :: b :: t ++ ':' :: '/' :: '/' :: rest).take 2 = [a, b] := rfl
        rw [this] at hc
        simpa using hc.2
    rw [ih hparts.2 rest]
    rfl

theorem parseUrl_rebuild (sch netloc path : Str)
    (hs : splitSchemeAux sch = none)
    (hn : ∀ c ∈ netloc, nlChar c = true)
    (hp : path = [] ∨ ∃ t, path = '/' :: t) :
    (parseUrl (sch ++ st "://" ++ netloc ++ path)).netloc = netloc := by
  have hshape : sch ++ st "://" ++ netloc ++ path =
      sch ++ ':' :: '/' :: '/' :: (netloc ++ path) := by
    simp [st]
  rw [hshape]
  unfold parseUrl
  rw [splitSchemeAux_append hs (netloc ++ path)]
  have htw : (netloc ++ path).takeWhile nlChar = netloc ++ path.takeWhile nlChar :=
    List.takeWhile_append_of_pos hn
  have hpath : path.takeWhile nlChar = [] := by
    rcases hp with rfl | ⟨t, rfl⟩
    · rfl
    · rfl
  simp only
  rw [htw, hpath, List.append_nil]

theorem rstripSlash_cons (c : Char) (cs : Str) :
    rstripSlash (c :: cs) =
      if rstripSlash cs = [] ∧ c = '/' then [] else c :: rstripSlash cs := rfl

theorem rstripSlash_append : ∀ (A B : Str), A ≠ [] →
    (∀ c, A.getLast? = some c → c ≠ '/') →
    rstripSlash (A ++ B) = A ++ rstripSlash B := by
  intro A
  induction A with
  | nil => intro B h; simp at h
  | cons a A' ih =>
    intro B _ hlast
    cases A' with
    | nil =>
      have ha : a ≠ '/' := hlast a rfl
      rw [List.cons_append, List.nil_append, rstripSlash_cons a B,
        if_neg (by intro hc; exact ha hc.2)]
      rfl
    | cons b t =>
      have hih := ih B (by simp) (fun c hc => hlast c (by
        rw [List.getLast?_cons_cons]
        exact hc))
      rw [List.cons_append, rstripSlash_cons a (b :: t ++ B), hih,
        if_neg (by intro hc; simp at hc)]
      rfl

theorem rstripSlash_slash_head (t : Str) :
    rstripSlash ('/' :: t) = [] ∨ ∃ r, rstripSlash ('/' :: t) = '/' :: r := by
  simp only [rstripSlash]
  by_cases h : rstripSlash t = []
  · rw [if_pos ⟨h, trivial⟩]
    exact Or.inl rfl
  · rw [if_neg (by intro hc; exact h hc.1)]
    exact Or.inr ⟨_, rfl⟩

theorem clean_url_netloc (sch netloc path : Str)
    (hs : splitSchemeAux sch = none)
    (hn : ∀ c ∈ netloc, nlChar c = true) (hnn : netloc ≠ [])
    (hp : path = [] ∨ ∃ t, path = '/' :: t) :
    (parseUrl (rstripSlash (sch ++ st "://" ++ netloc ++ path))).netloc =
      netloc := by
  have hA : sch ++ st "://" ++ netloc ≠ [] := by simp [hnn]
  have hlast : ∀ c, (sch ++ st "://" ++ netloc).getLast? = some c → c ≠ '/' := by
    intro c hc
    rw [List.getLast?_append_of_ne_nil _ hnn] at hc
    have hcm : c ∈ netloc := List.mem_of_mem_getLast? hc
    have := hn c hcm
    intro heq
    rw [heq] at this
    simp [nlChar] at this
  have hre : sch ++ st "://" ++ netloc ++ path =
      (sch ++ st "://" ++ netloc) ++ path := by
    simp [List.append_assoc]
  rw [hre, rstripSlash_append _ _ hA hlast]
  rcases hp with rfl | ⟨t, rfl⟩
  · rw [show rstripSlash ([] : Str) = [] from rfl, List.append_nil]
    have := parseUrl_rebuild sch netloc [] hs hn (Or.inl rfl)
    rw [List.append_nil] at this
    exact this
  · rcases rstripSlash_slash_head t with h | ⟨r, h⟩ <;> rw [h]
    · rw [List.append_nil]
      have := parseUrl_rebuild sch netloc [] hs hn (Or.inl rfl)
      rw [List.append_nil] at this
      exact this
    · exact parseUrl_rebuild sch netloc ('/' :: r) hs hn (Or.inr ⟨r, rfl⟩)

theorem dropWhile_head_false {p : Char → Bool} {l t : Str} {c : Char}
    (h : l.dropWhile p = c :: t) : p c = false := by
  have := List.head?_dropWhile_not p l
  rw [h] at this
  simp at this
  exact this

theorem parseUrl_clean (u : Str) (hnn : (parseUrl u).netloc ≠ []) :
    (parseUrl (rstripSlash
      ((parseUrl u).scheme ++ st "://" ++ (parseUrl u).netloc ++
        (parseUrl u).path))).netloc = (parseUrl u).netloc := by
  cases h : splitSchemeAux u with
  | none =>
    exfalso
    apply hnn
    unfold parseUrl
    rw [h]
  | some p =>
    obtain ⟨sch, rest⟩ := p
    have hsch : (parseUrl u).scheme = sch := by unfold parseUrl; rw [h]
    have hnet : (parseUrl u).netloc = rest.takeWhile nlChar := by
      unfold parseUrl; rw [h]
    have hpath : (parseUrl u).path = (rest.dropWhile nlChar).takeWhile pChar := by
      unfold parseUrl; rw [h]
    rw [hsch, hnet, hpath]
    refine clean_url_netloc sch _ _ (splitSchemeAux_scheme_none h)
      (fun c hc => List.mem_takeWhile_imp hc) (hnet ▸ hnn) ?_
    cases hd : rest.dropWhile nlChar with
    | nil => exact Or.inl rfl
    | cons c t =>
      have hc : nlChar c = false := dropWhile_head_false hd
      have : c = '/' ∨ c = '?' ∨ c = '#' := by
        simp [nlChar] at hc
        by_cases h1 : c = '/'
        · exact Or.inl h1
        · by_cases h2 : c = '?'
          · exact Or.inr (Or.inl h2)
          · exact Or.inr (Or.inr (hc h1 h2))
      rcases this with rfl | rfl | rfl
      · right
        exact ⟨t.takeWhile pChar, rfl⟩
      · left
        rfl
      · left
        rfl

/-- Invariant maintained by the link-discovery loop: discovered URLs are
pairwise distinct, none equals the (slash-stripped) base URL, and — whenever
the base has a host at all — each discovered URL parses back to a host equal
(lowercased) to the base host. -/
def DiscInv (base_url base_domain : Str) (acc : List (Str × Str)) : Prop :=
  (acc.map Prod.fst).Nodup ∧
  ∀ p ∈ acc, p.1 ≠ rstripSlash base_url ∧
    (base_domain ≠ [] → lowerStr (parseUrl p.1).netloc = base_domain)

theorem discoverStep_inv (base_url base_domain : Str)
    (acc : List (Str × Str)) (a : Str × Str)
    (h : DiscInv base_url base_domain acc) :
    DiscInv base_url base_domain (discoverStep base_url base_domain acc a) := by
  simp only [discoverStep]
  split
  · exact h
  · split
    · exact h
    · rename_i hdom
      split
      · rename_i kw hkw
        split
        · rename_i hins
          have hdomeq : lowerStr (parseUrl (urljoin base_url (trimStr a.1))).netloc
              = base_domain := not_ne_iff.mp hdom
          constructor
          · rw [List.map_append, List.nodup_append]
            refine ⟨h.1, List.nodup_singleton _, ?_⟩
            intro x hx hx2
            rw [List.map_singleton, List.mem_singleton] at hx2
            rw [hx2] at hx
            exact hins.1 hx
          · intro p hp
            rcases List.mem_append.mp hp with hp | hp
            · exact h.2 p hp
            · rw [List.mem_singleton] at hp
              subst hp
              refine ⟨hins.2, ?_⟩
              intro hbd
              have hnn : (parseUrl (urljoin base_url (trimStr a.1))).netloc ≠ [] := by
                intro hz
                apply hbd
                rw [← hdomeq, hz]
                rfl
              dsimp only
              rw [parseUrl_clean _ hnn]
              exact hdomeq
        · exact h
      · exact h

theorem foldl_discoverStep_inv (base_url base_domain : Str) :
    ∀ (anchors : List (Str × Str)) (acc : List (Str × Str)),
      DiscInv base_url base_domain acc →
      DiscInv base_url base_domain
        (anchors.foldl (discoverStep base_url base_domain) acc) := by
  intro anchors
  induction anchors with
  | nil => intro acc h; exact h
  | cons a as ih =>
    intro acc h
    rw [List.foldl_cons]
    exact ih _ (discoverStep_inv _ _ _ _ h)

theorem discover_links_props (doc : Dom) (base : Str) :
    ((discover_links doc base).map Prod.fst).Nodup ∧
    ∀ p ∈ discover_links doc base, p.1 ≠ rstripSlash base ∧
      ((parseUrl base).netloc ≠ [] →
        lowerStr (parseUrl p.1).netloc = lowerStr (parseUrl base).netloc) := by
  have hinv := foldl_discoverStep_inv base (lowerStr (parseUrl base).netloc)
    (anchorHrefs doc) [] ⟨List.nodup_nil, by simp⟩
  simp only [discover_links]
  constructor
  · exact hinv.1.sublist ((List.take_sublist _ _).map Prod.fst)
  · intro p hp
    have hmem := (List.take_sublist _ _).subset hp
    refine ⟨(hinv.2 p hmem).1, ?_⟩
    intro hb
    refine (hinv.2 p hmem).2 ?_
    intro hz
    apply hb
    rcases hl : (parseUrl base).netloc with _ | ⟨c, t⟩
    · rfl
    · rw [hl] at hz
      simp [lowerStr] at hz

/-- Python `str.split(sep)` for a single separator character (all pieces,
empties kept). -/
def splitOnChar (sep : Char) : Str → List Str
  | [] => [[]]
  | c :: t =>
    if c = sep then [] :: splitOnChar sep t
    else
      match splitOnChar sep t with
      | r :: rs => (c :: r) :: rs
      | [] => [[c]]

/-- The registrable domain of a host name, in the sense the claim uses: the
last two dot-separated labels. Follows the claim wording; used only to state
what claim C4 asserts about the eligibility of subdomain links. -/
def registrableDomain (netloc : Str) : Str :=
  joinSep (st ".") (((splitOnChar '.' netloc).reverse.take 2).reverse)

/-! ## Claim C4 -/

/-- A homepage with a single link to a subdomain of the base registrable
domain whose path matches the `about` keyword. -/
def subdomainDoc : Dom :=
  .elem (st "a") [(st "href", st "https://blog.acme.com/about")]
    (.text (st "About") .nil) .nil

/-- C4 (counterexample): a link on a subdomain of the base URL's registrable
domain, matching a classification keyword, is NOT eligible: the source
compares exact lowercased netlocs (`parsed.netloc.lower() != base_domain`),
so `https://blog.acme.com/about` is excluded from a crawl of
`https://acme.com` even though both hosts share the registrable domain
`acme.com` and the path matches the `about` keyword. -/
theorem discover_links_subdomain_excluded :
    discover_links subdomainDoc (st "https://acme.com") = [] ∧
    registrableDomain (st "blog.acme.com") = registrableDomain (st "acme.com") ∧
    containsSub (st "about") (lowerStr (st "/about")) = true := by
  decide

/-- One cross-domain `about` link followed by one same-domain `/about`
link. -/
def crossDomainDoc : Dom :=
  .elem (st "a") [(st "href", st "https://evil.com/about")]
    (.text (st "About") .nil)
    (.elem (st "a") [(st "href", st "/about")] (.text (st "About Us") .nil) .nil)

/-- C4 (amended): a link appears in the Link Discoverer's result only if its
resolved absolute URL's host equals the base URL's host exactly
(case-insensitively); links on any other host — including subdomains of the
base's registrable domain — are excluded even when they match a
classification keyword. On a link set with one cross-domain `about` link and
one same-domain `/about` link, discovery returns only the same-domain link,
tagged `about`. -/
theorem discover_links_same_host :
    (∀ (doc : Dom) (base : Str), (parseUrl base).netloc ≠ [] →
      ∀ p ∈ discover_links doc base,
        lowerStr (parseUrl p.1).netloc = lowerStr (parseUrl base).netloc) ∧
    discover_links crossDomainDoc (st "https://acme.com") =
      [(st "https://acme.com/about", st "about")] :=
  ⟨fun doc base hb p hp => ((discover_links_props doc base).2 p hp).2 hb,
   by decide⟩

/-- Witness for `discover_links_same_host`: the host-equality part applied to
the discovered same-domain link of the two-link scenario. -/
theorem discover_links_same_host_witness :
    lowerStr (parseUrl (st "https://acme.com/about")).netloc =
      lowerStr (parseUrl (st "https://acme.com")).netloc :=
  discover_links_same_host.1 crossDomainDoc (st "https://acme.com")
    (by decide) (st "https://acme.com/about", st "about") (by decide)

theorem rstripSlash_idem (l : Str) : rstripSlash (rstripSlash l) = rstripSlash l := by
  induction l with
  | nil => rfl
  | cons c cs ih =>
    rw [rstripSlash_cons]
    by_cases h : rstripSlash cs = [] ∧ c = '/'
    · rw [if_pos h]
      rfl
    · rw [if_neg h, rstripSlash_cons, ih]
      rw [if_neg h]

theorem normalizeUrl_rstrip (u : Str) :
    rstripSlash (normalizeUrl u) = normalizeUrl u := by
  unfold normalizeUrl
  exact rstripSlash_idem _

theorem crawlSecondary_decomp (env : FetchEnv) :
    ∀ (links : List (Str × Str)) (pages : List ScrapedPage) (emails : List Str),
      ∃ extra, (crawlSecondary env links pages emails).1 = pages ++ extra ∧
        List.Sublist (extra.map (fun p => p.url)) (links.map Prod.fst) ∧
        ∀ p ∈ extra, 30 ≤ p.content.length := by
  intro links
  induction links with
  | nil =>
    intro pages emails
    exact ⟨[], by simp [crawlSecondary], by simp, by simp⟩
  | cons l rest ih =>
    intro pages emails
    obtain ⟨u, t⟩ := l
    simp only [crawlSecondary]
    cases hf : fetch_page (env.fetchPage u) with
    | none =>
      obtain ⟨extra, h1, h2, h3⟩ := ih pages emails
      exact ⟨extra, h1, h2.cons _, h3⟩
    | some h =>
      simp only []
      by_cases hraw : h.raw = []
      · rw [if_pos hraw]
        obtain ⟨extra, h1, h2, h3⟩ := ih pages emails
        exact ⟨extra, h1, h2.cons _, h3⟩
      · rw [if_neg hraw]
        by_cases hlen : (extract_text h.doc).length < 30
        · rw [if_pos hlen]
          obtain ⟨extra, h1, h2, h3⟩ := ih pages emails
          exact ⟨extra, h1, h2.cons _, h3⟩
        · rw [if_neg hlen]
          obtain ⟨extra, h1, h2, h3⟩ :=
            ih (pages ++ [⟨u, extract_title h.doc, extract_text h.doc, t⟩])
              (insertAll emails (extract_emails h))
          refine ⟨⟨u, extract_title h.doc, extract_text h.doc, t⟩ :: extra, ?_, ?_, ?_⟩
          · rw [h1, List.append_assoc]
            rfl
          · rw [List.map_cons]
            exact h2.cons₂ _
          · intro p hp
            rcases List.mem_cons.mp hp with rfl | hp
            · exact Nat.le_of_not_lt hlen
            · exact h3 p hp

theorem crawlLocals_none (env : FetchEnv) (url : Str) (pw : Bool)
    (hh : homepageHtml env url pw = none) : crawlLocals env url pw = none := by
  unfold crawlLocals
  rw [hh]

theorem crawlLocals_some (env : FetchEnv) (url : Str) (pw : Bool) (h0 : Html)
    (hh : homepageHtml env url pw = some h0) :
    crawlLocals env url pw = some
      (extract_company_name (finalHomepage env (normalizeUrl url) pw h0).doc
        (normalizeUrl url),
       (crawlSecondary env
         (discover_links (finalHomepage env (normalizeUrl url) pw h0).doc
           (normalizeUrl url))
         [⟨normalizeUrl url,
           extract_title (finalHomepage env (normalizeUrl url) pw h0).doc,
           extract_text (finalHomepage env (normalizeUrl url) pw h0).doc,
           st "homepage"⟩]
         (insertAll [] (extract_emails (finalHomepage env (normalizeUrl url) pw h0)))).1,
       buildSummary
         (crawlSecondary env
           (discover_links (finalHomepage env (normalizeUrl url) pw h0).doc
             (normalizeUrl url))
           [⟨normalizeUrl url,
             extract_title (finalHomepage env (normalizeUrl url) pw h0).doc,
             extract_text (finalHomepage env (normalizeUrl url) pw h0).doc,
             st "homepage"⟩]
           (insertAll [] (extract_emails (finalHomepage env (normalizeUrl url) pw h0)))).1,
       (crawlSecondary env
         (discover_links (finalHomepage env (normalizeUrl url) pw h0).doc
           (normalizeUrl url))
         [⟨normalizeUrl url,
           extract_title (finalHomepage env (normalizeUrl url) pw h0).doc,
           extract_text (finalHomepage env (normalizeUrl url) pw h0).doc,
           st "homepage"⟩]
         (insertAll [] (extract_emails (finalHomepage env (normalizeUrl url) pw h0)))).2) := by
  unfold crawlLocals
  rw [hh]

theorem scrape_website_none (env : FetchEnv) (url : Str) (pw : Bool)
    (hh : homepageHtml env url pw = none) :
    scrape_website env url pw = ⟨normalizeUrl url, [], [], []⟩ := by
  unfold scrape_website
  rw [crawlLocals_none env url pw hh]

theorem scrape_website_some (env : FetchEnv) (url : Str) (pw : Bool) (h0 : Html)
    (hh : homepageHtml env url pw = some h0) :
    scrape_website env url pw =
      ⟨normalizeUrl url,
       extract_company_name (finalHomepage env (normalizeUrl url) pw h0).doc
         (normalizeUrl url),
       (crawlSecondary env
         (discover_links (finalHomepage env (normalizeUrl url) pw h0).doc
           (normalizeUrl url))
         [⟨normalizeUrl url,
           extract_title (finalHomepage env (normalizeUrl url) pw h0).doc,
           extract_text (finalHomepage env (normalizeUrl url) pw h0).doc,
           st "homepage"⟩]
         (insertAll [] (extract_emails (finalHomepage env (normalizeUrl url) pw h0)))).1,
       buildSummary
         (crawlSecondary env
           (discover_links (finalHomepage env (normalizeUrl url) pw h0).doc
             (normalizeUrl url))
           [⟨normalizeUrl url,
             extract_title (finalHomepage env (normalizeUrl url) pw h0).doc,
             extract_text (finalHomepage env (normalizeUrl url) pw h0).doc,
             st "homepage"⟩]
           (insertAll [] (extract_emails (finalHomepage env (normalizeUrl url) pw h0)))).1⟩ := by
  unfold scrape_website
  rw [crawlLocals_some env url pw h0 hh]
  rfl

theorem raw_summary_is_projection_aux (env : FetchEnv) (url : Str) (pw : Bool) :
    (scrape_website env url pw).raw_text_summary =
      buildSummary (scrape_website env url pw).pages := by
  cases hh : homepageHtml env url pw with
  | none =>
    rw [scrape_website_none env url pw hh]
    rfl
  | some h0 =>
    rw [scrape_website_some env url pw h0 hh]

theorem scrape_network_failure_aux (env : FetchEnv) (url : Str)
    (ht : env.fetchPage (normalizeUrl url) = FetchOutcome.timeout) :
    scrape_website env url false = ⟨normalizeUrl url, [], [], []⟩ ∧
    (∀ o : FetchOutcome, (∀ ct b, o ≠ FetchOutcome.success ct b) →
      fetch_page o = none) := by
  constructor
  · have hh : homepageHtml env url false = none := by
      simp [homepageHtml, ht, fetch_page, pyTruthy]
    exact scrape_website_none env url false hh
  · intro o ho
    cases o with
    | success ct b => exact absurd rfl (ho ct b)
    | timeout => rfl
    | httpError => rfl
    | requestError => rfl

theorem pages_unique_aux (env : FetchEnv) (url : Str) (pw : Bool) :
    ((scrape_website env url pw).pages.map (fun p => p.url)).Nodup ∧
    ∀ p, (scrape_website env url pw).pages.head? = some p →
      p.url = normalizeUrl url ∧ p.page_type = st "homepage" := by
  cases hh : homepageHtml env url pw with
  | none =>
    rw [scrape_website_none env url pw hh]
    exact ⟨List.nodup_nil, by intro p hp; simp at hp⟩
  | some h0 =>
    rw [scrape_website_some env url pw h0 hh]
    dsimp only
    obtain ⟨extra, h1, h2, h3⟩ := crawlSecondary_decomp env
      (discover_links (finalHomepage env (normalizeUrl url) pw h0).doc
        (normalizeUrl url))
      [⟨normalizeUrl url,
        extract_title (finalHomepage env (normalizeUrl url) pw h0).doc,
        extract_text (finalHomepage env (normalizeUrl url) pw h0).doc,
        st "homepage"⟩]
      (insertAll [] (extract_emails (finalHomepage env (normalizeUrl url) pw h0)))
    rw [h1]
    have hd := discover_links_props
      (finalHomepage env (normalizeUrl url) pw h0).doc (normalizeUrl url)
    constructor
    · rw [List.map_append, List.map_cons, List.map_nil, List.singleton_append]
      refine List.nodup_cons.mpr ⟨?_, hd.1.sublist h2⟩
      intro hmem
      have hmem2 := h2.subset hmem
      obtain ⟨q, hq, hq1⟩ := List.mem_map.mp hmem2
      have := (hd.2 q hq).1
      rw [normalizeUrl_rstrip] at this
      exact this hq1
    · intro p hp
      rw [List.singleton_append, List.head?_cons, Option.some.injEq] at hp
      rw [← hp]
      exact ⟨rfl, rfl⟩

theorem pages_empty_iff_aux (env : FetchEnv) (url : Str) (pw : Bool) :
    ((scrape_website env url pw).pages = [] ↔ homepageHtml env url pw = none) ∧
    (∀ p ∈ (scrape_website env url pw).pages.tail, 30 ≤ p.content.length) ∧
    (∀ h0, homepageHtml env url pw = some h0 →
      (scrape_website env url pw).pages.head? =
        some ⟨normalizeUrl url,
          extract_title (finalHomepage env (normalizeUrl url) pw h0).doc,
          extract_text (finalHomepage env (normalizeUrl url) pw h0).doc,
          st "homepage"⟩) := by
  cases hh : homepageHtml env url pw with
  | none =>
    rw [scrape_website_none env url pw hh]
    refine ⟨by simp, by simp, ?_⟩
    intro h0 hcon
    simp at hcon
  | some h0 =>
    rw [scrape_website_some env url pw h0 hh]
    dsimp only
    obtain ⟨extra, h1, h2, h3⟩ := crawlSecondary_decomp env
      (discover_links (finalHomepage env (normalizeUrl url) pw h0).doc
        (normalizeUrl url))
      [⟨normalizeUrl url,
        extract_title (finalHomepage env (normalizeUrl url) pw h0).doc,
        extract_text (finalHomepage env (normalizeUrl url) pw h0).doc,
        st "homepage"⟩]
      (insertAll [] (extract_emails (finalHomepage env (normalizeUrl url) pw h0)))
    rw [h1]
    refine ⟨?_, ?_, ?_⟩
    · rw [List.singleton_append]
      constructor
      · intro hcon
        simp at hcon
      · intro hcon
        simp at hcon
    · rw [List.singleton_append, List.tail_cons]
      exact h3
    · intro h0' hcon
      rw [Option.some.injEq] at hcon
      rw [← hcon, List.singleton_append, List.head?_cons]

theorem thin_homepage_aux (env : FetchEnv) (url : Str) (h0 pw0 : Html)
    (hh : homepageHtml env url true = some h0)
    (hthin : (extract_text h0.doc).length < 100)
    (hpw : env.playwright (normalizeUrl url) = some pw0)
    (hraw : pw0.raw ≠ []) :
    (scrape_website env url true).pages.head? =
      some ⟨normalizeUrl url,
        extract_title
          (if (extract_text h0.doc).length < (extract_text pw0.doc).length
           then pw0 else h0).doc,
        extract_text
          (if (extract_text h0.doc).length < (extract_text pw0.doc).length
           then pw0 else h0).doc,
        st "homepage"⟩ := by
  have hfin : finalHomepage env (normalizeUrl url) true h0 =
      (if (extract_text h0.doc).length < (extract_text pw0.doc).length
       then pw0 else h0) := by
    unfold finalHomepage
    rw [if_pos (And.intro hthin (rfl : (true : Bool) = true)), hpw]
    simp only []
    by_cases hlt : (extract_text h0.doc).length < (extract_text pw0.doc).length
    · rw [if_pos (And.intro hraw hlt), if_pos hlt]
    · rw [if_neg (fun hc => hlt hc.2), if_neg hlt]
  have := (pages_empty_iff_aux env url true).2.2 h0 hh
  rw [hfin] at this
  exact this


/-! ## Claim C9 -/

/-- C9: for every crawl, the returned raw text summary equals the projection
obtained by concatenating, for each page record in order, a labeled block of
the uppercased page type and title followed by the normalized content — the
summary carries no information beyond the page records. -/
theorem raw_summary_is_projection (env : FetchEnv) (url : Str) (pw : Bool) :
    (scrape_website env url pw).raw_text_summary =
      buildSummary (scrape_website env url pw).pages :=
  raw_summary_is_projection_aux env url pw

/-! ## Claim C3 -/

/-- C3: when the homepage fetch raises a connection timeout and the render
fallback is disabled, the crawler returns a corpus with empty pages, empty
company name and empty summary instead of raising; and every network-level
failure outcome (timeout, HTTP error, connection error) as well as a
non-HTML response is converted by the fetcher to "no content", never
propagated. -/
theorem scrape_network_failure_safe (env : FetchEnv) (url : Str)
    (ht : env.fetchPage (normalizeUrl url) = FetchOutcome.timeout) :
    scrape_website env url false = ⟨normalizeUrl url, [], [], []⟩ ∧
    (∀ o : FetchOutcome, (∀ ct b, o ≠ FetchOutcome.success ct b) →
      fetch_page o = none) :=
  scrape_network_failure_aux env url ht

/-- The network oracle of end-to-end scenario B: every fetch times out and
the render engine is unavailable. -/
def downEnv : FetchEnv :=
  { fetchPage := fun _ => FetchOutcome.timeout, playwright := fun _ => none }

/-- Witness for `scrape_network_failure_safe` at scenario B. -/
theorem scrape_network_failure_safe_witness :
    scrape_website downEnv (st "https://down.example") false =
      ⟨normalizeUrl (st "https://down.example"), [], [], []⟩ :=
  (scrape_network_failure_safe downEnv (st "https://down.example") rfl).1

/-! ## Claim C8 -/

/-- C8: for every crawl, the page records of the returned corpus have
pairwise distinct source URLs, and whenever the pages list is non-empty the
record at index 0 is the homepage record: its URL is the normalized base URL
and its page type is `homepage`. -/
theorem pages_unique_homepage_first (env : FetchEnv) (url : Str) (pw : Bool) :
    ((scrape_website env url pw).pages.map (fun p => p.url)).Nodup ∧
    ∀ p, (scrape_website env url pw).pages.head? = some p →
      p.url = normalizeUrl url ∧ p.page_type = st "homepage" :=
  pages_unique_aux env url pw

/-- A homepage of one plain text run, for discharging witnesses. -/
def witnessEnv : FetchEnv :=
  { fetchPage := fun _ =>
      FetchOutcome.success (st "text/html")
        ⟨st "<p>plain homepage content</p>",
         .text (st "plain homepage content") .nil⟩,
    playwright := fun _ => none }

/-- Witness for `pages_unique_homepage_first`: the head record of a concrete
crawl is the homepage record. -/
theorem pages_unique_homepage_first_witness :
    (⟨st "https://w.com", [], st "plain homepage content",
        st "homepage"⟩ : ScrapedPage).url = normalizeUrl (st "https://w.com") ∧
    (⟨st "https://w.com", [], st "plain homepage content",
        st "homepage"⟩ : ScrapedPage).page_type = st "homepage" :=
  (pages_unique_homepage_first witnessEnv (st "https://w.com") false).2
    ⟨st "https://w.com", [], st "plain homepage content", st "homepage"⟩
    (by decide)

/-! ## Claim C10 -/

/-- C10: for every crawl, the returned pages list is empty exactly when no
homepage HTML was obtained from either fetch strategy; the 30-character
minimum applies only to the secondary pages (every record after index 0 has
content of at least 30 characters), and when homepage HTML is obtained the
homepage record is appended unconditionally, its content being exactly the
normalized text of the chosen homepage HTML with no length condition. -/
theorem pages_empty_iff_no_homepage (env : FetchEnv) (url : Str) (pw : Bool) :
    ((scrape_website env url pw).pages = [] ↔ homepageHtml env url pw = none) ∧
    (∀ p ∈ (scrape_website env url pw).pages.tail, 30 ≤ p.content.length) ∧
    (∀ h0, homepageHtml env url pw = some h0 →
      (scrape_website env url pw).pages.head? =
        some ⟨normalizeUrl url,
          extract_title (finalHomepage env (normalizeUrl url) pw h0).doc,
          extract_text (finalHomepage env (normalizeUrl url) pw h0).doc,
          st "homepage"⟩) :=
  pages_empty_iff_aux env url pw

/-- A homepage whose markup is non-empty but whose normalized text is empty
(everything sits inside a stripped `script` element). -/
def emptyContentEnv : FetchEnv :=
  { fetchPage := fun _ =>
      FetchOutcome.success (st "text/html")
        ⟨st "<script>var x = 1;</script>",
         .elem (st "script") [] (.text (st "var x = 1;") .nil) .nil⟩,
    playwright := fun _ => none }

/-- Witness for `pages_empty_iff_no_homepage`: a homepage whose normalized
content is the empty string still produces a homepage record at index 0. -/
theorem pages_empty_iff_no_homepage_witness :
    (scrape_website emptyContentEnv (st "https://e.com") false).pages.head? =
      some ⟨st "https://e.com", [], [], st "homepage"⟩ := by
  have h := (pages_empty_iff_no_homepage emptyContentEnv
      (st "https://e.com") false).2.2
    ⟨st "<script>var x = 1;</script>",
     .elem (st "script") [] (.text (st "var x = 1;") .nil) .nil⟩ (by decide)
  rw [h]
  decide

/-! ## Claim C5 -/

/-- C5: when the fetched homepage's normalized text is under the
100-character thin-content threshold and the render fallback is enabled and
returns a truthy page, the crawler keeps whichever of the original and the
rendered page has the strictly longer extracted text; the final homepage
record is built from that choice. -/
theorem thin_homepage_uses_longer_render (env : FetchEnv) (url : Str)
    (h0 pw0 : Html) (hh : homepageHtml env url true = some h0)
    (hthin : (extract_text h0.doc).length < 100)
    (hpw : env.playwright (normalizeUrl url) = some pw0)
    (hraw : pw0.raw ≠ []) :
    (scrape_website env url true).pages.head? =
      some ⟨normalizeUrl url,
        extract_title
          (if (extract_text h0.doc).length < (extract_text pw0.doc).length
           then pw0 else h0).doc,
        extract_text
          (if (extract_text h0.doc).length < (extract_text pw0.doc).length
           then pw0 else h0).doc,
        st "homepage"⟩ :=
  thin_homepage_aux env url h0 pw0 hh hthin hpw hraw

/-- The thin homepage of end-to-end scenario C: below 100 characters. -/
def thinHtml : Html :=
  ⟨st "<html>thin</html>",
   .text (st "Short homepage text, forty chars or so.") .nil⟩

/-- The rendered page of end-to-end scenario C: 2000 characters of usable
text. -/
def renderedHtml : Html :=
  ⟨st "<html>rendered</html>", .text (List.replicate 2000 'y') .nil⟩

/-- The network oracle of end-to-end scenario C. -/
def scenarioCEnv : FetchEnv :=
  { fetchPage := fun _ => FetchOutcome.success (st "text/html") thinHtml,
    playwright := fun _ => some renderedHtml }

/-- Witness for `thin_homepage_uses_longer_render` at scenario C: the final
homepage record is derived from the rendered HTML. -/
theorem thin_homepage_uses_longer_render_witness :
    (scrape_website scenarioCEnv (st "https://acme.com") true).pages.head? =
      some ⟨normalizeUrl (st "https://acme.com"),
        extract_title
          (if (extract_text thinHtml.doc).length <
              (extract_text renderedHtml.doc).length
           then renderedHtml else thinHtml).doc,
        extract_text
          (if (extract_text thinHtml.doc).length <
              (extract_text renderedHtml.doc).length
           then renderedHtml else thinHtml).doc,
        st "homepage"⟩ :=
  thin_homepage_uses_longer_render scenarioCEnv (st "https://acme.com")
    thinHtml renderedHtml (by decide) (by decide) rfl (by decide)

/-! ## Claim C1 -/

/-- The homepage of end-to-end scenario A: title with an em-dash separator,
`og:site_name` of `Acme Corp`, an internal `/about` link and a
`mailto:sales@acme.com` link. -/
def scenarioADoc : Dom :=
  .elem (st "html") [] (
    .elem (st "head") [] (
      .elem (st "title") [] (.text (st "Acme Corp — Building the Future") .nil) (
      .elem (st "meta")
        [(st "property", st "og:site_name"), (st "content", st "Acme Corp")]
        .nil .nil)) (
    .elem (st "body") [] (
      .elem (st "a") [(st "href", st "/about")] (.text (st "About") .nil) (
      .elem (st "a") [(st "href", st "mailto:sales@acme.com")]
        (.text (st "Email us") .nil) (
      .text (st "Acme builds excellent widgets for modern businesses.") .nil)))
      .nil)) .nil

/-- The network oracle of end-to-end scenario A: the homepage succeeds, the
discovered `/about` page times out. -/
def scenarioAEnv : FetchEnv :=
  { fetchPage := fun u =>
      if u = st "https://acme.com" then
        FetchOutcome.success (st "text/html")
          ⟨st "<a href=\"mailto:sales@acme.com\">Email us</a>", scenarioADoc⟩
      else FetchOutcome.timeout,
    playwright := fun _ => none }

/-- C1 (code bug): in scenario A the crawl discovers and deduplicates the
contact email list `[sales@acme.com]` and `scrape_website` passes it to the
`ScrapedWebsite` constructor, but the pydantic model in models.py declares no
`contact_emails` field, so the constructor silently drops the argument
(pydantic ignores unknown keywords by default) and the returned corpus
carries no contact email data at all — `app.py` line 877, which reads
`result.scraped.contact_emails`, would fail. The first conjunct evaluates the
crawl at the failing input; the second shows the constructor returns the same
corpus regardless of the email list passed. -/
theorem contact_emails_dropped_by_model :
    (crawlLocals scenarioAEnv (st "https://acme.com") false).map
      (fun l => l.2.2.2) = some [st "sales@acme.com"] ∧
    ScrapedWebsite.fromKwargs (st "https://acme.com") (st "Acme Corp") [] []
        [st "sales@acme.com"] =
      ScrapedWebsite.fromKwargs (st "https://acme.com") (st "Acme Corp") [] []
        [] :=
  ⟨by decide, rfl⟩
